import Mathlib

/-!
# Verification of the AutoDocGen function-location / insertion-planning core

This file is a shallow embedding of the TypeScript sources of the AutoDocGen
VS Code extension (parser.ts, parsers/javaRegexParser.ts, parsers/jsTsAstParser.ts,
parsers/pythonAstParser.ts, extension.ts and the model-aware extension entry point),
together with theorems settling the specification claims about that code.

Text is modelled as `List Char`.  JavaScript strings, regexes and objects are
translated operation by operation:
* the two signature regexes are hand-compiled matchers with exactly the
  backtracking the patterns need (analysed alternative by alternative);
* JavaScript objects used as history records become association lists with
  first-occurrence lookup / in-place update / first-occurrence delete;
* `crypto.createHash("md5")` is the external Node library, modelled by a full
  MD5 implementation over UTF-8 bytes;
* the Babel parser/generator and the external Python parser process are
  collaborators; their *use* by the repository code is embedded faithfully
  (try/catch around parsing, traversal of the returned tree, promise rejection).
-/

set_option maxRecDepth 20000

namespace AutoDocGen

/-- Coerce a string literal to the `List Char` text representation. -/
def str (s : String) : List Char := s.data

/-- JavaScript `\s` (whitespace class), restricted to the ASCII range used by
the sources: space, tab, newline, carriage return, vertical tab, form feed. -/
def isWsC (c : Char) : Bool :=
  c = ' ' || c = '\t' || c = '\n' || c = '\r' || c = '\x0b' || c = '\x0c'

/-- JavaScript `\w`: letters, digits, underscore. -/
def isWordC (c : Char) : Bool :=
  ('a' ≤ c && c ≤ 'z') || ('A' ≤ c && c ≤ 'Z') || ('0' ≤ c && c ≤ '9') || c = '_'

/-- The character class `[\w<>\[\]]` used for type tokens in both signature regexes. -/
def isTypeC (c : Char) : Bool :=
  isWordC c || c = '<' || c = '>' || c = '[' || c = ']'

/-- JavaScript `String.prototype.trim` on the modelled character list. -/
def trimC (s : List Char) : List Char :=
  ((s.dropWhile isWsC).reverse.dropWhile isWsC).reverse

/-- JavaScript `String.prototype.startsWith`. -/
def startsWithC (s p : List Char) : Bool := p.isPrefixOf s

/-- JavaScript `String.prototype.endsWith`. -/
def endsWithC (s p : List Char) : Bool := p.isSuffixOf s

/-- JavaScript `text.split("\n")`. -/
def splitOnNl : List Char → List (List Char)
  | [] => [[]]
  | c :: rest =>
    if c = '\n' then [] :: splitOnNl rest
    else
      match splitOnNl rest with
      | l :: ls => (c :: l) :: ls
      | [] => [[c]]

/-- JavaScript `lines.join("\n")`. -/
def joinNl (ls : List (List Char)) : List Char := List.intercalate ['\n'] ls

/-- Offset-to-line map `document.positionAt(offset).line`: the number of newline characters
strictly before `offset`. -/
def lineOfOffset (text : List Char) (offset : Nat) : Nat :=
  ((text.take offset).filter (fun c => c = '\n')).length

/-- Line count `document.lineCount`: number of lines of the document. -/
def lineCount (text : List Char) : Nat := (splitOnNl text).length

/-! ## DocPresenceDetector: `hasDocCommentAbove` (extension.ts lines 28-58,
model-aware entry point lines 31-61; both copies are character-identical).

The TypeScript walks `i` from `line - 1` upward (downward in index) with a
single `inBlock` flag.  The recursion below is on the index `i`; the walk
exits with `false` when `i` would pass below `0`. -/

/-- One TypeScript loop iteration of `hasDocCommentAbove`, recursing on the
current line index.  `lines` is the document as a line list. -/
def hasDocWalk (lines : List (List Char)) : Nat → Bool → Bool
  | i, inBlock =>
    if lines.length ≤ i then false
    else
      let txt := trimC (lines.getD i [])
      if !inBlock then
        if endsWithC txt (str "*/") then
          match i with
          | 0 => false
          | j + 1 => hasDocWalk lines j true
        else if startsWithC txt (str "\"\"\"") then true
        else if startsWithC txt (str "//") then
          match i with
          | 0 => false
          | j + 1 => hasDocWalk lines j false
        else if txt = [] then
          match i with
          | 0 => false
          | j + 1 => hasDocWalk lines j false
        else false
      else
        if startsWithC txt (str "/**") || startsWithC txt (str "/*") then true
        else
          match i with
          | 0 => false
          | j + 1 => hasDocWalk lines j true

/-- Detector `hasDocCommentAbove(doc, line)`: checks above the given line number for a
real docblock, walking upward from `line - 1`. -/
def hasDocCommentAbove (lines : List (List Char)) (line : Nat) : Bool :=
  match line with
  | 0 => false
  | l + 1 => hasDocWalk lines l false

/-! ## Data model: `ParsedFunction` (types.ts) -/

/-- One `{ name, type? }` parameter record. -/
structure ParamInfo where
  name : List Char
  type : Option (List Char)
  deriving DecidableEq, Repr

/-- The `ParsedFunction` record of types.ts.  For the regex locators
`startIndex`/`endIndex` are character offsets. -/
structure ParsedFunction where
  name : List Char
  params : List ParamInfo
  returnType : Option (List Char)
  startIndex : Nat
  endIndex : Nat
  body : List Char
  language : String
  deriving DecidableEq, Repr

/-! ## Hand-compiled signature regexes

Primitive pieces.  Each matcher works on the suffix of the text starting at
the candidate position and returns the unconsumed suffix on success, so the
match length is `s.length - rest.length`.

For the JS/TS pattern
`(?:function\s+(\w+)\s*\(([^)]*)\)\s*:?\s*[\w<>\[\]]*\s*\{)|(?:const\s+(\w+)\s*=\s*\(([^)]*)\)\s*:?\s*[\w<>\[\]]*\s*=>\s*\{)`
every adjacent pair of sub-patterns draws from disjoint character sets
(whitespace vs. word/type characters vs. the literals `(`, `)`, `:`, `=`, `>`
and the brace), so greedy maximal-munch matching is exactly the regex
semantics and no backtracking is required.

The Java pattern
`(?:public|private|protected)?\s*(?:static\s*)?(?:[\w<>\[\]]+\s+)+(\w+)\s*\(([^)]*)\)\s*\{`
needs backtracking in three places: the optional visibility alternation, the
optional `static`, and the number of iterations of the `+` group (whose
repeated unit ends in `\s+` while the following `(\w+)` also consumes word
characters).  Those three choices are enumerated in the regex engine's
greedy preference order; inside each unit the classes are again disjoint, so
each unit itself is maximal-munch. -/

/-- Match a literal character sequence; returns the rest on success. -/
def litP : List Char → List Char → Option (List Char)
  | [], s => some s
  | _ :: _, [] => none
  | c :: cs, d :: ds => if c = d then litP cs ds else none

/-- Greedy `class+`: one or more characters satisfying `p`; returns the
captured run and the rest. -/
def takeW1 (p : Char → Bool) (s : List Char) : Option (List Char × List Char) :=
  match s.takeWhile p with
  | [] => none
  | t => some (t, s.dropWhile p)

/-- Greedy `\s*`. -/
def dropWsP (s : List Char) : List Char := s.dropWhile isWsC

/-- Greedy `:?`. -/
def optColon : List Char → List Char
  | ':' :: r => r
  | s => s

/-- First JS/TS alternative:
`function\s+(\w+)\s*\(([^)]*)\)\s*:?\s*[\w<>\[\]]*\s*\{`.
Returns (group 1, group 2, rest). -/
def jsAlt1 (s : List Char) : Option (List Char × List Char × List Char) := do
  let s ← litP (str "function") s
  let (_, s) ← takeW1 isWsC s
  let (nm, s) ← takeW1 isWordC s
  let s := dropWsP s
  let s ← litP (str "(") s
  let args := s.takeWhile (fun c => c ≠ ')')
  let s := s.dropWhile (fun c => c ≠ ')')
  let s ← litP (str ")") s
  let s := dropWsP s
  let s := optColon s
  let s := dropWsP s
  let s := s.dropWhile isTypeC
  let s := dropWsP s
  let s ← litP (str "\x7b") s
  pure (nm, args, s)

/-- Second JS/TS alternative:
`const\s+(\w+)\s*=\s*\(([^)]*)\)\s*:?\s*[\w<>\[\]]*\s*=>\s*\{`.
Returns (group 3, group 4, rest). -/
def jsAlt2 (s : List Char) : Option (List Char × List Char × List Char) := do
  let s ← litP (str "const") s
  let (_, s) ← takeW1 isWsC s
  let (nm, s) ← takeW1 isWordC s
  let s := dropWsP s
  let s ← litP (str "=") s
  let s := dropWsP s
  let s ← litP (str "(") s
  let args := s.takeWhile (fun c => c ≠ ')')
  let s := s.dropWhile (fun c => c ≠ ')')
  let s ← litP (str ")") s
  let s := dropWsP s
  let s := optColon s
  let s := dropWsP s
  let s := s.dropWhile isTypeC
  let s := dropWsP s
  let s ← litP (str "=>") s
  let s := dropWsP s
  let s ← litP (str "\x7b") s
  pure (nm, args, s)

/-- Result of attempting the whole pattern at one position: consumed length
and the numbered capture groups the callers read (`match[1]`, `match[2]`). -/
structure MatchHit where
  len : Nat
  g1 : Option (List Char)
  g2 : Option (List Char)
  deriving DecidableEq, Repr

/-- The JS/TS alternation tried at one position.  Alternative 1 is preferred;
an alternative-2 match leaves groups 1 and 2 undefined (exactly what
`match[1] || match[2]` then sees). -/
def jsMatchAt (s : List Char) : Option MatchHit :=
  match jsAlt1 s with
  | some (nm, args, rest) => some ⟨s.length - rest.length, some nm, some args⟩
  | none =>
    match jsAlt2 s with
    | some (_, _, rest) => some ⟨s.length - rest.length, none, none⟩
    | none => none

/-- One unit of the Java `(?:[\w<>\[\]]+\s+)+` group. -/
def javaOneIter (s : List Char) : Option (List Char) := do
  let (_, s) ← takeW1 isTypeC s
  let (_, s) ← takeW1 isWsC s
  pure s

/-- All suffixes reachable by 1, 2, 3, … iterations of the Java `+` group,
in increasing iteration count (fuel bounds the recursion; each unit consumes
at least two characters). -/
def javaIters : Nat → List Char → List (List Char)
  | 0, _ => []
  | fuel + 1, s =>
    match javaOneIter s with
    | none => []
    | some r => r :: javaIters fuel r

/-- The tail of the Java pattern after the `+` group:
`(\w+)\s*\(([^)]*)\)\s*\{`. Returns (group 1, group 2, rest). -/
def javaFinish (s : List Char) : Option (List Char × List Char × List Char) := do
  let (nm, s) ← takeW1 isWordC s
  let s := dropWsP s
  let s ← litP (str "(") s
  let args := s.takeWhile (fun c => c ≠ ')')
  let s := s.dropWhile (fun c => c ≠ ')')
  let s ← litP (str ")") s
  let s := dropWsP s
  let s ← litP (str "\x7b") s
  pure (nm, args, s)

/-- After the modifiers: try the `+` group with the greatest iteration count
first (regex greediness), then the pattern tail. -/
def javaAfterMods (s : List Char) : Option (List Char × List Char × List Char) :=
  ((javaIters (s.length + 1) s).reverse).findSome? javaFinish

/-- The `(?:static\s*)?` choice points, in greedy preference order. -/
def javaStaticOpts (s : List Char) : List (List Char) :=
  match litP (str "static") s with
  | some r => [dropWsP r, s]
  | none => [s]

/-- The Java pattern tried at one position, enumerating the visibility
alternatives (then the empty option) and the `static` option in the regex
engine's preference order. -/
def javaMatchAt (s : List Char) : Option MatchHit :=
  (([str "public", str "private", str "protected", []].filterMap (fun v => litP v s)).flatMap
      (fun s1 => javaStaticOpts (dropWsP s1))).findSome?
    (fun s2 =>
      match javaAfterMods s2 with
      | some (nm, args, rest) => some ⟨s.length - rest.length, some nm, some args⟩
      | none => none)

/-- A recorded `regex.exec` hit: start offset plus the capture groups. -/
structure RxMatch where
  start : Nat
  len : Nat
  g1 : Option (List Char)
  g2 : Option (List Char)
  deriving DecidableEq, Repr

/-- The `while ((match = regex.exec(text)) !== null)` loop: scan left to
right, at each position try the whole pattern, and resume after the matched
text (`lastIndex`).  `fuel` starts at `text.length + 1`; every step either
consumes a character or a (non-empty) match. -/
def execLoop (matchAt : List Char → Option MatchHit) :
    Nat → List Char → Nat → List RxMatch
  | 0, _, _ => []
  | fuel + 1, s, idx =>
    match matchAt s with
    | some h => ⟨idx, h.len, h.g1, h.g2⟩ :: execLoop matchAt fuel (s.drop h.len) (idx + h.len)
    | none =>
      match s with
      | [] => []
      | _ :: t => execLoop matchAt fuel t (idx + 1)

/-- All matches of a pattern over a text, from position 0. -/
def execAll (matchAt : List Char → Option MatchHit) (text : List Char) : List RxMatch :=
  execLoop matchAt (text.length + 1) text 0

/-! ## Body extent by brace counting (parser.ts lines 57-74 and
javaRegexParser.ts lines 17-33; the two loops are identical, including the
`started` flag and the final `endIndex++`). -/

/-- The brace-counting loop over the suffix starting at the signature match.
`i` is the current absolute offset, `cnt` the running count (an integer: a
close brace before any open brace drives it negative exactly as in the
source), `started` records whether any `{` has been seen.  Returns the
`endIndex` the loop leaves behind: one past the balancing `}` on success, or
the text length if the count never returns to zero. -/
def braceLoop : List Char → Nat → Int → Bool → Nat
  | [], i, _, _ => i
  | c :: rest, i, cnt, started =>
    if c = '\x7b' then braceLoop rest (i + 1) (cnt + 1) true
    else if c = '\x7d' then
      if cnt - 1 = 0 && started then i + 1
      else braceLoop rest (i + 1) (cnt - 1) started
    else braceLoop rest (i + 1) cnt started

/-- End offset `endIndex` computed from a match's `startIndex`. -/
def braceScanFrom (text : List Char) (start : Nat) : Nat :=
  braceLoop (text.drop start) start 0 false

/-- Mirror of `braceLoop` recording whether the loop runs off the end of the
text without the count returning to zero (the "unbalanced candidate" case). -/
def braceRunsOff : List Char → Int → Bool → Bool
  | [], _, _ => true
  | c :: rest, cnt, started =>
    if c = '\x7b' then braceRunsOff rest (cnt + 1) true
    else if c = '\x7d' then
      if cnt - 1 = 0 && started then false
      else braceRunsOff rest (cnt - 1) started
    else braceRunsOff rest cnt started

/-! ## Parameter/return-type extraction and descriptor assembly
(parser.ts lines 76-110, regex-fallback version). -/

/-- JavaScript `substring(start, end)` for `start ≤ end`. -/
def substrC (text : List Char) (s e : Nat) : List Char := (text.take e).drop s

/-- Parameter slice `text.substring(startIndex).match(...)` with the pattern
matching a parenthesized run of non-parenthesis characters: the first `(` that is
followed by a `)` yields the characters between them; no such pair yields no
match, in which case the caller uses `""`. -/
def parenArgs : List Char → List Char
  | [] => []
  | '(' :: rest =>
    if (rest.dropWhile (fun c => c ≠ ')')).isEmpty then []
    else rest.takeWhile (fun c => c ≠ ')')
  | _ :: rest => parenArgs rest

/-- JavaScript `s.split(",")`. -/
def splitOnComma : List Char → List (List Char)
  | [] => [[]]
  | c :: rest =>
    if c = ',' then [] :: splitOnComma rest
    else
      match splitOnComma rest with
      | l :: ls => (c :: l) :: ls
      | [] => [[c]]

/-- Pieces `args.split(",").map(p => p.trim()).filter(Boolean)`. -/
def splitParams (args : List Char) : List (List Char) :=
  ((splitOnComma args).map trimC).filter (fun p => ¬p.isEmpty)

/-- One JS/TS-style parameter: `const [name, type] = p.split(":")`,
`{ name: name.trim(), type: type?.trim() }`. -/
def jsParamOf (p : List Char) : ParamInfo :=
  let name := p.takeWhile (fun c => c ≠ ':')
  let rest := p.dropWhile (fun c => c ≠ ':')
  match rest with
  | [] => ⟨trimC name, none⟩
  | _ :: r => ⟨trimC name, some (trimC (r.takeWhile (fun c => c ≠ ':')))⟩

/-- Accumulator pass for `splitWsTokens`. -/
def splitWsAux : List Char → List Char → List (List Char)
  | [], acc => if acc.isEmpty then [] else [acc.reverse]
  | c :: rest, acc =>
    if isWsC c then
      if acc.isEmpty then splitWsAux rest [] else acc.reverse :: splitWsAux rest []
    else splitWsAux rest (c :: acc)

/-- JavaScript `p.trim().split(/\s+/)` on an already trimmed piece: the
maximal whitespace-separated tokens. -/
def splitWsTokens (s : List Char) : List (List Char) := splitWsAux s []

/-- One Java-style parameter (javaRegexParser.ts lines 42-48):
`const [type, name] = p.trim().split(/\s+/)`,
`{ name: name || "", type: type || undefined }`. -/
def javaParamOf (p : List Char) : ParamInfo :=
  let toks := splitWsTokens (trimC p)
  let type0 := toks.getD 0 []
  let name1 := toks.getD 1 []
  ⟨name1, if type0.isEmpty then none else some type0⟩

/-- The TypeScript return-type pattern `\)\s*:\s*([\w<>\[\]]+)\s*(?:{|=>)`
tried at one position. -/
def tsRetAt (s : List Char) : Option (List Char) := do
  let s ← litP (str ")") s
  let s := dropWsP s
  let s ← litP (str ":") s
  let s := dropWsP s
  let (ty, s) ← takeW1 isTypeC s
  let s := dropWsP s
  match s with
  | '\x7b' :: _ => pure ty
  | '=' :: '>' :: _ => pure ty
  | _ => none

/-- Leftmost match of the return-type pattern over a text
(`text.substring(startIndex).match(...)`). -/
def tsRetSearch : List Char → Option (List Char)
  | [] => none
  | s@(_ :: rest) =>
    match tsRetAt s with
    | some ty => some ty
    | none => tsRetSearch rest

/-- JavaScript `a || fallback` on a possibly-undefined string: `a` when it is
defined and non-empty (truthy), else the fallback. -/
def jsOrElse (o : Option (List Char)) (fallback : List Char) : List Char :=
  match o with
  | some x => if x.isEmpty then fallback else x
  | none => fallback

/-- JavaScript `match[1] || match[2] || "anonymous"`. -/
def jsNameOr (g1 g2 : Option (List Char)) : List Char :=
  jsOrElse g1 (jsOrElse g2 (str "anonymous"))

/-- Body text `rawBody.split("\n").map(l => l.trim()).filter(l => l.length > 0).join("\n")`. -/
def fnBodyOf (raw : List Char) : List Char :=
  joinNl (((splitOnNl raw).map trimC).filter (fun l => ¬l.isEmpty))

/-- Descriptor assembly for one regex match, translating the loop body of
parser.ts lines 54-110 (regex-fallback version). -/
def descFromMatch (text : List Char) (language : String) (m : RxMatch) : ParsedFunction :=
  let startIndex := m.start
  let endIndex := braceScanFrom text startIndex
  let args := parenArgs (text.drop startIndex)
  let params := (splitParams args).map jsParamOf
  let returnType := if language = "typescript" then tsRetSearch (text.drop startIndex) else none
  { name := jsNameOr m.g1 m.g2
    params := params
    returnType := returnType
    startIndex := startIndex
    endIndex := endIndex
    body := fnBodyOf (substrC text startIndex endIndex)
    language := language }

/-- Pattern selection of the regex-fallback `parseFunctions`
(parser.ts lines 37-49): JS/TS and Java get a pattern, anything else makes
the function return `[]`.  (The `python` branch delegates to the external
AST parser and is modelled separately.) -/
def regexForLanguage (language : String) : Option (List Char → Option MatchHit) :=
  if language = "javascript" || language = "typescript" then some jsMatchAt
  else if language = "java" then some javaMatchAt
  else none

/-- The regex-fallback `parseFunctions(text, language)` of parser.ts
(second version, lines 27-114), for the non-python languages. -/
def parseFunctionsRegex (text : List Char) (language : String) : List ParsedFunction :=
  match regexForLanguage language with
  | none => []
  | some matchAt => (execAll matchAt text).map (descFromMatch text language)

/-- Descriptor assembly of javaRegexParser.ts lines 15-66: same match and
brace loop, but whitespace-split `type name` parameters, no return type, and
language fixed to `"java"`. -/
def javaDescFromMatch (text : List Char) (m : RxMatch) : ParsedFunction :=
  let startIndex := m.start
  let endIndex := braceScanFrom text startIndex
  let args := parenArgs (text.drop startIndex)
  let params := (splitParams args).map javaParamOf
  { name := jsNameOr m.g1 none
    params := params
    returnType := none
    startIndex := startIndex
    endIndex := endIndex
    body := fnBodyOf (substrC text startIndex endIndex)
    language := "java" }

/-- Locator `parseJavaWithRegex(text)` of javaRegexParser.ts. -/
def parseJavaWithRegex (text : List Char) : List ParsedFunction :=
  (execAll javaMatchAt text).map (javaDescFromMatch text)

/-! ## IdentityHasher

`fullBody = body.replace(/\s+/g, " ")`, then
`crypto.createHash("md5").update(fullBody).digest("hex")`, then
`` `${relativePath}::${language}::${hash}` `` (extension entry point, both the
full-file scan and the selection scan).  `crypto` is the external Node
library: MD5 over the UTF-8 bytes of the string is implemented here in
full. -/

/-- Normalization `body.replace(...)` of every whitespace run (the regex
replace with a single-space replacement): every maximal whitespace run becomes one
space.  The flag records whether the previous character was whitespace. -/
def collapseAux : Bool → List Char → List Char
  | _, [] => []
  | prevWs, c :: rest =>
    if isWsC c then
      if prevWs then collapseAux true rest else ' ' :: collapseAux true rest
    else c :: collapseAux false rest

/-- Whitespace-run collapse of a function body. -/
def collapseWs (s : List Char) : List Char := collapseAux false s

/-- UTF-8 encoding of one character. -/
def utf8Bytes (c : Char) : List Nat :=
  let n := c.toNat
  if n < 128 then [n]
  else if n < 2048 then [192 + n / 64, 128 + n % 64]
  else if n < 65536 then [224 + n / 4096, 128 + (n / 64) % 64, 128 + n % 64]
  else [240 + n / 262144, 128 + (n / 4096) % 64, 128 + (n / 64) % 64, 128 + n % 64]

/-- UTF-8 encoding of a text (Node hashes the UTF-8 bytes of the string). -/
def utf8Encode (s : List Char) : List Nat := s.flatMap utf8Bytes

/-- Truncation to 32 bits. -/
def w32 (n : Nat) : Nat := n % 4294967296

/-- Bitwise complement within 32 bits (arguments are kept below `2^32`). -/
def not32 (x : Nat) : Nat := 4294967295 - x

/-- 32-bit left rotation for `0 < n < 32` and `x < 2^32`. -/
def rotl32 (x n : Nat) : Nat := w32 (x <<< n) + (x >>> (32 - n))

/-- The 64 MD5 sine-derived constants (RFC 1321). -/
def md5K : List Nat :=
  [0xd76aa478, 0xe8c7b756, 0x242070db, 0xc1bdceee,
   0xf57c0faf, 0x4787c62a, 0xa8304613, 0xfd469501,
   0x698098d8, 0x8b44f7af, 0xffff5bb1, 0x895cd7be,
   0x6b901122, 0xfd987193, 0xa679438e, 0x49b40821,
   0xf61e2562, 0xc040b340, 0x265e5a51, 0xe9b6c7aa,
   0xd62f105d, 0x02441453, 0xd8a1e681, 0xe7d3fbc8,
   0x21e1cde6, 0xc33707d6, 0xf4d50d87, 0x455a14ed,
   0xa9e3e905, 0xfcefa3f8, 0x676f02d9, 0x8d2a4c8a,
   0xfffa3942, 0x8771f681, 0x6d9d6122, 0xfde5380c,
   0xa4beea44, 0x4bdecfa9, 0xf6bb4b60, 0xbebfbc70,
   0x289b7ec6, 0xeaa127fa, 0xd4ef3085, 0x04881d05,
   0xd9d4d039, 0xe6db99e5, 0x1fa27cf8, 0xc4ac5665,
   0xf4292244, 0x432aff97, 0xab9423a7, 0xfc93a039,
   0x655b59c3, 0x8f0ccc92, 0xffeff47d, 0x85845dd1,
   0x6fa87e4f, 0xfe2ce6e0, 0xa3014314, 0x4e0811a1,
   0xf7537e82, 0xbd3af235, 0x2ad7d2bb, 0xeb86d391]

/-- The per-step rotation amounts. -/
def md5S : List Nat :=
  [7, 12, 17, 22, 7, 12, 17, 22, 7, 12, 17, 22, 7, 12, 17, 22,
   5, 9, 14, 20, 5, 9, 14, 20, 5, 9, 14, 20, 5, 9, 14, 20,
   4, 11, 16, 23, 4, 11, 16, 23, 4, 11, 16, 23, 4, 11, 16, 23,
   6, 10, 15, 21, 6, 10, 15, 21, 6, 10, 15, 21, 6, 10, 15, 21]

/-- One MD5 step on the state quadruple. -/
def md5Step (M : List Nat) (st : Nat × Nat × Nat × Nat) (i : Nat) : Nat × Nat × Nat × Nat :=
  let a := st.1
  let b := st.2.1
  let c := st.2.2.1
  let d := st.2.2.2
  let fg : Nat × Nat :=
    if i < 16 then ((b &&& c) ||| (not32 b &&& d), i)
    else if i < 32 then ((d &&& b) ||| (not32 d &&& c), (5 * i + 1) % 16)
    else if i < 48 then (b ^^^ c ^^^ d, (3 * i + 5) % 16)
    else (c ^^^ (b ||| not32 d), (7 * i) % 16)
  let f := w32 (fg.1 + a + md5K.getD i 0 + M.getD fg.2 0)
  (d, w32 (b + rotl32 f (md5S.getD i 0)), b, c)

/-- The sixteen little-endian 32-bit words of one 64-byte chunk. -/
def md5Words (chunk : List Nat) : List Nat :=
  (List.range 16).map (fun j =>
    chunk.getD (4 * j) 0 + 256 * chunk.getD (4 * j + 1) 0 +
      65536 * chunk.getD (4 * j + 2) 0 + 16777216 * chunk.getD (4 * j + 3) 0)

/-- Process one chunk. -/
def md5Chunk (st : Nat × Nat × Nat × Nat) (chunk : List Nat) : Nat × Nat × Nat × Nat :=
  let M := md5Words chunk
  let r := (List.range 64).foldl (md5Step M) st
  (w32 (st.1 + r.1), w32 (st.2.1 + r.2.1), w32 (st.2.2.1 + r.2.2.1), w32 (st.2.2.2 + r.2.2.2))

/-- MD5 padding: a `0x80` byte, zeros to 56 mod 64, then the bit length as
eight little-endian bytes. -/
def md5Pad (msg : List Nat) : List Nat :=
  let bitLen := 8 * msg.length
  let zeros := (64 + 56 - (msg.length + 1) % 64) % 64
  msg ++ [128] ++ List.replicate zeros 0 ++
    (List.range 8).map (fun i => (bitLen >>> (8 * i)) % 256)

/-- Split into 64-byte chunks (fuel-bounded for kernel reducibility). -/
def chunks64 : Nat → List Nat → List (List Nat)
  | 0, _ => []
  | _, [] => []
  | fuel + 1, l => l.take 64 :: chunks64 fuel (l.drop 64)

/-- Lower-case hex digit. -/
def hexDigitC (n : Nat) : Char :=
  if n < 10 then Char.ofNat (48 + n) else Char.ofNat (87 + n)

/-- Two hex digits of a byte. -/
def byteHex (b : Nat) : List Char := [hexDigitC (b / 16), hexDigitC (b % 16)]

/-- Eight hex digits of a 32-bit word, little-endian byte order. -/
def wordHexLE (w : Nat) : List Char :=
  byteHex (w % 256) ++ byteHex ((w >>> 8) % 256) ++
    byteHex ((w >>> 16) % 256) ++ byteHex ((w >>> 24) % 256)

/-- MD5 hex digest of a byte sequence. -/
def md5hexBytes (msg : List Nat) : List Char :=
  let padded := md5Pad msg
  let st := (chunks64 (padded.length) padded).foldl md5Chunk
    (0x67452301, 0xefcdab89, 0x98badcfe, 0x10325476)
  wordHexLE st.1 ++ wordHexLE st.2.1 ++ wordHexLE st.2.2.1 ++ wordHexLE st.2.2.2

/-- Digest `crypto.createHash("md5").update(s).digest("hex")`. -/
def md5hex (s : List Char) : List Char := md5hexBytes (utf8Encode s)

/-- The identity key
`` `${relativePath}::${language}::${md5(body.replace(/\s+/g, " "))}` ``. -/
def uniqueKey (relativePath : List Char) (language : String) (body : List Char) : List Char :=
  relativePath ++ str "::" ++ language.data ++ str "::" ++ md5hex (collapseWs body)

/-! ## The history record

A JavaScript object `Record<string, boolean>` with its insertion-ordered
properties: an association list with unique keys.  Property read finds the
first (only) binding; property write updates it in place or appends; the
`delete` operator removes it. -/

/-- The in-memory history map. -/
abbrev HistoryMap : Type := List (List Char × Bool)

/-- Property read `history[key]` (as an `Option`; `undefined` is `none`). -/
def mapGet (m : HistoryMap) (k : List Char) : Option Bool :=
  match m with
  | [] => none
  | p :: rest => if p.1 = k then some p.2 else mapGet rest k

/-- Property write `history[key] = v`: in-place update of the existing
binding, else append. -/
def mapSet (m : HistoryMap) (k : List Char) (v : Bool) : HistoryMap :=
  match m with
  | [] => [(k, v)]
  | p :: rest => if p.1 = k then (k, v) :: rest else p :: mapSet rest k v

/-- Property removal `delete history[key]`. -/
def mapDel (m : HistoryMap) (k : List Char) : HistoryMap :=
  match m with
  | [] => []
  | p :: rest => if p.1 = k then rest else p :: mapDel rest k

/-! ## InsertionPlanner / HistoryReconciler: the full-file scan

Translation of the per-function loop of the model-aware
`autodocgen.scanCurrentFile` handler (lines 263-315 of the entry point): line
resolution, validity check, hashing, doc detection, the reconcile branches,
the collaborator call, and the batched edit.  The documentation generator
(`generateDocFromGroq` / `generateDocFromLocalModel`) is the external
collaborator `gen`; it returns the generated text or nothing
(failure / empty answer, which the handler treats alike via `if (!docText)`). -/

/-- One batched edit: `edits.insert(uri, new Position(line, 0), text)`. -/
structure EditIns where
  line : Nat
  text : List Char
  deriving DecidableEq, Repr

/-- Scan state threaded through the per-function loop. -/
structure ScanState where
  edits : List EditIns
  history : HistoryMap
  insertedCount : Nat
  deriving DecidableEq, Repr

/-- The insertion line of one descriptor: for Python the parser reports
1-based line numbers in `startIndex`, otherwise `positionAt(startIndex).line`. -/
def scanLineOf (text : List Char) (language : String) (fn : ParsedFunction) : Int :=
  if language = "python" then (fn.startIndex : Int) - 1
  else (lineOfOffset text fn.startIndex : Int)

/-- The body of `for (const fn of parsedFuncs) { ... }`. -/
def scanStep (text : List Char) (relativePath : List Char) (language : String)
    (gen : List Char → String → Option (List Char))
    (st : ScanState) (fn : ParsedFunction) : ScanState :=
  let currentLine : Int := scanLineOf text language fn
  if currentLine < 0 ∨ (lineCount text : Int) ≤ currentLine then st
  else
    let cl := currentLine.toNat
    let key := uniqueKey relativePath language fn.body
    let hasDoc := hasDocCommentAbove (splitOnNl text) cl
    if hasDoc then { st with history := mapSet st.history key true }
    else
      let h1 := if mapGet st.history key = some true then mapDel st.history key else st.history
      match gen fn.body language with
      | none => { st with history := h1 }
      | some docText =>
        if docText.isEmpty then { st with history := h1 }
        else
          { edits := st.edits ++ [⟨cl, docText ++ ['\n']⟩]
            history := mapSet h1 key true
            insertedCount := st.insertedCount + 1 }

/-- The scan loop over an already-located descriptor list. -/
def scanWithFuncs (funcs : List ParsedFunction) (text : List Char)
    (relativePath : List Char) (language : String)
    (gen : List Char → String → Option (List Char)) (history0 : HistoryMap) : ScanState :=
  funcs.foldl (scanStep text relativePath language gen) ⟨[], history0, 0⟩

/-- Write condition `if (Object.keys(history).length) ...`: the
persisted record is written back exactly when the final map is non-empty. -/
def historyWritten (st : ScanState) : Bool := st.history.length != 0

/-- The full-file scan of a Java document: the dispatching `parseFunctions`
(parser.ts first version, lines 18-19) sends `"java"` to
`parseJavaWithRegex`, and the handler loop then reconciles each descriptor. -/
def scanCurrentFileJava (text : List Char) (relativePath : List Char)
    (gen : List Char → String → Option (List Char)) (history0 : HistoryMap) : ScanState :=
  scanWithFuncs (parseJavaWithRegex text) text relativePath "java" gen history0

/-- Character offset of column 0 of a given line. -/
def lineStartOffset : List Char → Nat → Nat
  | _, 0 => 0
  | [], _ + 1 => 0
  | c :: rest, l + 1 =>
    if c = '\n' then 1 + lineStartOffset rest l
    else 1 + lineStartOffset rest (l + 1)

/-- Application of one batched insertion `{line, column 0, text}` by the
editor collaborator. -/
def applyInsert (text : List Char) (e : EditIns) : List Char :=
  let off := lineStartOffset text e.line
  text.take off ++ e.text ++ text.drop off

/-! ## ASTFunctionLocator for JS/TS (parsers/jsTsAstParser.ts)

Babel is the external structural parser; what the repository code does with
its output is embedded here.  A parameter node is one of the three shapes
`extractParams` distinguishes; `rendered` fields stand for the output of the
external `babelGenerator` on the corresponding node. -/

/-- A Babel parameter node as consumed by `extractParams`. -/
inductive JsParamNode where
  /-- Case `p.type === "Identifier"`, with its optional type annotation. -/
  | identP (name : List Char) (typeAnn : Option (List Char))
  /-- Case `p.type === "AssignmentPattern" && p.left.type === "Identifier"`. -/
  | assignIdentP (name : List Char) (typeAnn : Option (List Char))
  /-- any other pattern; the generator renders its source text. -/
  | otherPattern (rendered : List Char)
  deriving DecidableEq, Repr

/-- The fields of a function-like Babel node that `handleFunctionNode`
reads: parameter nodes, the rendered `returnType` annotation if any,
`node.start`/`node.end`, and the generator's rendering of the node. -/
structure FnNodeInfo where
  params : List JsParamNode
  returnTypeAnn : Option (List Char)
  startPos : Nat
  endPos : Nat
  code : List Char
  deriving DecidableEq, Repr

mutual
/-- A Babel AST node, restricted to the shapes the traversal of
jsTsAstParser.ts distinguishes.  `variableDeclarator` carries the binding
name when its `id` is an `Identifier` (the parent check of the
`ArrowFunctionExpression` visitor); every other parent shape is
`otherNode`. -/
inductive JsAst where
  | functionDeclaration (id : Option (List Char)) (info : FnNodeInfo) (children : JsAstList)
  | functionExpression (id : Option (List Char)) (info : FnNodeInfo) (children : JsAstList)
  | arrowFunctionExpression (info : FnNodeInfo) (children : JsAstList)
  | classMethod (keyName : Option (List Char)) (info : FnNodeInfo) (children : JsAstList)
  | tsDeclareFunction (id : Option (List Char)) (info : FnNodeInfo) (children : JsAstList)
  | variableDeclarator (idName : Option (List Char)) (children : JsAstList)
  | otherNode (children : JsAstList)

/-- Children of a node. -/
inductive JsAstList where
  | nil
  | cons (a : JsAst) (rest : JsAstList)
end

/-- Extraction `extractParams` (jsTsAstParser.ts lines 36-64) on one parameter node. -/
def extractParamInfo : JsParamNode → ParamInfo
  | .identP n t => ⟨n, t⟩
  | .assignIdentP n t => ⟨n, t⟩
  | .otherPattern r => ⟨r, none⟩

/-- Collector `handleFunctionNode` (jsTsAstParser.ts lines 66-88): drops unresolved
names (`if (!name || name === "anonymous") return;`), otherwise pushes the
descriptor. -/
def handleFunctionNode (language : String) (name : List Char) (info : FnNodeInfo) :
    List ParsedFunction :=
  if name.isEmpty || name = str "anonymous" then []
  else
    [{ name := name
       params := info.params.map extractParamInfo
       returnType := info.returnTypeAnn
       startIndex := info.startPos
       endIndex := info.endPos
       body := info.code
       language := language }]

mutual
/-- The `babelTraverse` visitors (jsTsAstParser.ts lines 90-122), in
pre-order; `parentVar` carries the binding name when the immediate parent is
a `VariableDeclarator` with an `Identifier` id. -/
def collectNode (language : String) (parentVar : Option (List Char)) :
    JsAst → List ParsedFunction
  | .functionDeclaration id info ch =>
    handleFunctionNode language (jsOrElse id (str "anonymous")) info ++
      collectList language none ch
  | .functionExpression id info ch =>
    handleFunctionNode language (jsOrElse id (str "anonymous")) info ++
      collectList language none ch
  | .arrowFunctionExpression info ch =>
    handleFunctionNode language
      (match parentVar with
       | some n => n
       | none => str "anonymous") info ++
      collectList language none ch
  | .classMethod keyName info ch =>
    handleFunctionNode language (jsOrElse keyName (str "anonymous")) info ++
      collectList language none ch
  | .tsDeclareFunction id info ch =>
    handleFunctionNode language (jsOrElse id (str "anonymous")) info ++
      collectList language none ch
  | .variableDeclarator idName ch => collectList language idName ch
  | .otherNode ch => collectList language none ch

/-- Traversal of a child list. -/
def collectList (language : String) (parentVar : Option (List Char)) :
    JsAstList → List ParsedFunction
  | .nil => []
  | .cons a rest => collectNode language parentVar a ++ collectList language parentVar rest
end

/-- Locator `parseJSTSWithAST` (jsTsAstParser.ts lines 6-34 and 90-124): the Babel
parse is the external collaborator; a parse exception is caught and turned
into an empty result, a parse tree is traversed. -/
def parseJSTSWithAST (language : String) (parseOutcome : Except (List Char) JsAst) :
    List ParsedFunction :=
  match parseOutcome with
  | .error _ => []
  | .ok ast => collectNode language none ast

/-! ## ASTFunctionLocator for Python (parsers/pythonAstParser.ts)

The external `python` process and `JSON.parse` are collaborators, modelled
by the exit code, the parsed stdout (if it is valid JSON), and stderr.  The
promise *rejects* on a non-zero exit code or invalid JSON - modelled by
`Except.error`. -/

/-- Locator `parsePythonWithAST` outcome handling (pythonAstParser.ts lines 23-34). -/
def parsePythonWithAST (exitCode : Int) (jsonOutput : Option (List ParsedFunction))
    (errorOutput : List Char) : Except (List Char) (List ParsedFunction) :=
  if exitCode = 0 then
    match jsonOutput with
    | some result => .ok result
    | none => .error (str "Invalid JSON output from Python parser.")
  else
    .error (str "Python parser failed with code " ++ (toString exitCode).data ++
      str ": " ++ errorOutput)

/-! ## Whitespace reformatting (for the identity-stability claim)

`WsReformat b b'` holds exactly when `b'` is obtained from `b` by replacing
the content of whitespace runs with other (non-empty) whitespace, keeping
every non-whitespace character: no run is created where none existed, none
is deleted outright, and no token character changes. -/

/-- Token-preserving whitespace reformatting. -/
inductive WsReformat : List Char → List Char → Prop
  | nil : WsReformat [] []
  | keep (c : Char) {xs ys : List Char} (hc : isWsC c = false) :
      WsReformat xs ys → WsReformat (c :: xs) (c :: ys)
  | run (r1 r2 : List Char) {xs ys : List Char}
      (h1 : r1 ≠ []) (h2 : r2 ≠ [])
      (hw1 : ∀ c ∈ r1, isWsC c = true) (hw2 : ∀ c ∈ r2, isWsC c = true) :
      WsReformat xs ys → WsReformat (r1 ++ xs) (r2 ++ ys)

/-! ## Derived views used by the theorems -/

/-- The edit (if any) that the scan loop body emits for one descriptor; the
loop's edit emission depends only on the line check, the doc detection and
the collaborator answer, never on the history map. -/
def stepEditOf (text : List Char) (language : String)
    (gen : List Char → String → Option (List Char)) (fn : ParsedFunction) : Option EditIns :=
  let currentLine : Int := scanLineOf text language fn
  if currentLine < 0 ∨ (lineCount text : Int) ≤ currentLine then none
  else if hasDocCommentAbove (splitOnNl text) currentLine.toNat then none
  else
    match gen fn.body language with
    | none => none
    | some docText => if docText.isEmpty then none else some ⟨currentLine.toNat, docText ++ ['\n']⟩

/-- The descriptor's line check of the scan loop, as a proposition. -/
def scanLineValid (text : List Char) (language : String) (fn : ParsedFunction) : Prop :=
  ¬(scanLineOf text language fn < 0 ∨ (lineCount text : Int) ≤ scanLineOf text language fn)

instance (text : List Char) (language : String) (fn : ParsedFunction) :
    Decidable (scanLineValid text language fn) := by
  unfold scanLineValid
  infer_instance

/-- A JavaScript object never holds two bindings of the same key. -/
def NodupKeys (m : HistoryMap) : Prop := m.Pairwise (fun p q => p.1 ≠ q.1)

/-- Modelled from the spec (claim C5): the first non-blank line strictly
above line index `j`, walking upward, as the claimed in-block rule reads it. -/
def nextNonBlankUp (lines : List (List Char)) : Nat → Option (List Char)
  | 0 => none
  | j + 1 =>
    let t := trimC (lines.getD j [])
    if t.isEmpty then nextNonBlankUp lines j else some t

/-! ## Concrete inputs for the settled claims -/

/-- A Java source file whose single function starts at offset 0. -/
def c1Text : List Char := str "public int f(int a) \x7b return a; \x7d"

/-- A generator collaborator that always answers with a well-formed JSDoc
block comment. -/
def c1Gen : List Char → String → Option (List Char) := fun _ _ => some (str "/**\n * doc\n */")

/-- First scan of the Java file. -/
def c1Run1 : ScanState := scanCurrentFileJava c1Text (str "Main.java") c1Gen []

/-- The file after the first scan's single batched edit is applied. -/
def c1Text2 : List Char := applyInsert c1Text ⟨0, str "/**\n * doc\n */" ++ ['\n']⟩

/-- Second scan, on the unchanged (but now documented) file, with the
persisted history of the first scan. -/
def c1Run2 : ScanState := scanCurrentFileJava c1Text2 (str "Main.java") c1Gen c1Run1.history

/-- A well-formed function followed by a truncated one. -/
def c2Text : List Char := str "function g(a) \x7b return a; \x7d function f() \x7b x"

/-- An anonymous function expression used as a callback argument
(`id` unresolvable), wrapped in a call-expression node. -/
def c3Ast : JsAst :=
  .otherNode (.cons (.functionExpression none ⟨[], none, 4, 20, str "function () \x7b\x7d"⟩ .nil) .nil)

/-- A named function declaration, for the witness. -/
def c3AstNamed : JsAst :=
  .functionDeclaration (some (str "add"))
    ⟨[.identP (str "a") none, .identP (str "b") none], none, 0, 30, str "function add(a, b) \x7b return a + b; \x7d"⟩
    .nil

/-- The descriptor the AST locator produces for `c3AstNamed`. -/
def c3AddDesc : ParsedFunction :=
  { name := str "add"
    params := [⟨str "a", none⟩, ⟨str "b", none⟩]
    returnType := none
    startIndex := 0
    endIndex := 30
    body := str "function add(a, b) \x7b return a + b; \x7d"
    language := "javascript" }

/-- A documented Java function: the signature-regex match begins at the
newline ending the line above the signature, so the walk starts on `end */`. -/
def c4Text : List Char := str "/** doc\nmid */\nend */\npublic int f(int a) \x7b return a; \x7d"

/-- Its identity key. -/
def c4Key : List Char := uniqueKey (str "B.java") "java" (str "public int f(int a) \x7b return a; \x7d")

/-- A generator collaborator that always fails. -/
def genFailing : List Char → String → Option (List Char) := fun _ _ => none

/-- Scan of the documented file with the function already recorded. -/
def c4Run : ScanState := scanCurrentFileJava c4Text (str "B.java") genFailing [(c4Key, true)]

/-- Lines where the in-block walk crosses a plain code line before finding
the block-comment opener further up. -/
def c5Lines : List (List Char) :=
  [str "/* start", str "code();", str "end */", str "function f() \x7b\x7d"]

/-- The brace-balance example input of the spec. -/
def c6Text : List Char := str "function f(a, b) \x7b if (x) \x7b return 1; \x7d return 2; \x7d"

/-- Two functions with identical bodies: the first undocumented with a
failing generator, the second documented; they share one identity key. -/
def c8Text : List Char :=
  str "int f(int a) \x7b return a; \x7d\n/** doc\nmid */\nend */\nint f(int a) \x7b return a; \x7d"

/-- The shared identity key of the two functions. -/
def c8Key : List Char := uniqueKey (str "A.java") "java" (str "int f(int a) \x7b return a; \x7d")

/-- Scan of that file with a failing generator and empty prior history. -/
def c8Run : ScanState := scanCurrentFileJava c8Text (str "A.java") genFailing []

/-- The descriptor the JS/TS regex locator produces for `c6Text` (used to
instantiate universally quantified theorems). -/
def c10Desc : ParsedFunction :=
  { name := str "f"
    params := [⟨str "a", none⟩, ⟨str "b", none⟩]
    returnType := none
    startIndex := 0
    endIndex := 51
    body := c6Text
    language := "javascript" }

/-- The descriptor `parseJavaWithRegex` produces for `c1Text`. -/
def c8WitnessDesc : ParsedFunction :=
  { name := str "f"
    params := [⟨str "a", some (str "int")⟩]
    returnType := none
    startIndex := 0
    endIndex := 33
    body := c1Text
    language := "java" }

/-! # Theorems

First the library of helper lemmas about the embedded operations, then one
theorem (plus counterexample/witness) per claim. -/

/-! ## History-map lemmas -/

theorem mapGet_set_self (m : HistoryMap) (k : List Char) (h : mapGet m k = some true) :
    mapSet m k true = m := by
  induction m with
  | nil => simp [mapGet] at h
  | cons p rest ih =>
    by_cases hp : p.1 = k
    · simp only [mapGet, if_pos hp] at h
      simp only [mapSet, if_pos hp]
      obtain ⟨k1, v1⟩ := p
      simp_all
    · simp only [mapGet, if_neg hp] at h
      simp only [mapSet, if_neg hp]
      rw [ih h]

theorem mapGet_set_ne (m : HistoryMap) (k k' : List Char) (v : Bool) (h : k' ≠ k) :
    mapGet (mapSet m k' v) k = mapGet m k := by
  induction m with
  | nil => simp [mapGet, mapSet, h]
  | cons p rest ih =>
    by_cases hp : p.1 = k'
    · simp [mapSet, mapGet, hp, h, Ne.symm h]
    · simp only [mapSet, if_neg hp, mapGet]
      by_cases hk : p.1 = k <;> simp [hk, ih]

theorem mapGet_del_ne (m : HistoryMap) (k k' : List Char) (h : k' ≠ k) :
    mapGet (mapDel m k') k = mapGet m k := by
  induction m with
  | nil => simp [mapDel]
  | cons p rest ih =>
    by_cases hp : p.1 = k'
    · simp [mapDel, mapGet, hp, h]
    · simp only [mapDel, if_neg hp, mapGet]
      by_cases hk : p.1 = k <;> simp [hk, ih]

theorem mapGet_eq_none (m : HistoryMap) (k : List Char) (h : ∀ p ∈ m, p.1 ≠ k) :
    mapGet m k = none := by
  induction m with
  | nil => rfl
  | cons p rest ih =>
    simp only [mapGet, if_neg (h p (List.mem_cons_self p rest))]
    exact ih fun q hq => h q (List.mem_cons_of_mem p hq)

theorem mapGet_del_self (m : HistoryMap) (k : List Char) (h : NodupKeys m) :
    mapGet (mapDel m k) k = none := by
  induction m with
  | nil => rfl
  | cons p rest ih =>
    rcases List.pairwise_cons.mp h with ⟨hp, hrest⟩
    by_cases hk : p.1 = k
    · simp only [mapDel, if_pos hk]
      exact mapGet_eq_none rest k fun q hq => hk ▸ (hp q hq).symm
    · simp only [mapDel, if_neg hk, mapGet, if_neg hk]
      exact ih hrest

theorem mem_mapSet (m : HistoryMap) (k : List Char) (v : Bool) (p : List Char × Bool)
    (h : p ∈ mapSet m k v) : p = (k, v) ∨ p ∈ m := by
  induction m with
  | nil => simp [mapSet] at h; simp [h]
  | cons q rest ih =>
    by_cases hq : q.1 = k
    · simp only [mapSet, if_pos hq] at h
      rcases List.mem_cons.mp h with h | h
      · exact Or.inl h
      · exact Or.inr (List.mem_cons_of_mem q h)
    · simp only [mapSet, if_neg hq] at h
      rcases List.mem_cons.mp h with h | h
      · exact Or.inr (h ▸ List.mem_cons_self q rest)
      · rcases ih h with h | h
        · exact Or.inl h
        · exact Or.inr (List.mem_cons_of_mem q h)

theorem nodup_mapSet (m : HistoryMap) (k : List Char) (v : Bool) (h : NodupKeys m) :
    NodupKeys (mapSet m k v) := by
  induction m with
  | nil => simp [mapSet, NodupKeys]
  | cons q rest ih =>
    rcases List.pairwise_cons.mp h with ⟨hq, hrest⟩
    by_cases hk : q.1 = k
    · simp only [mapSet, if_pos hk]
      exact List.pairwise_cons.mpr ⟨fun p hp => by simpa using hk ▸ hq p hp, hrest⟩
    · simp only [mapSet, if_neg hk]
      refine List.pairwise_cons.mpr ⟨fun p hp => ?_, ih hrest⟩
      rcases mem_mapSet rest k v p hp with h | h
      · simpa [h] using hk
      · exact hq p h

theorem mapDel_sublist (m : HistoryMap) (k : List Char) : (mapDel m k).Sublist m := by
  induction m with
  | nil => simp [mapDel]
  | cons q rest ih =>
    by_cases hk : q.1 = k
    · simpa only [mapDel, if_pos hk] using List.sublist_cons_self q rest
    · simpa only [mapDel, if_neg hk] using List.Sublist.cons₂ q ih

theorem nodup_mapDel (m : HistoryMap) (k : List Char) (h : NodupKeys m) :
    NodupKeys (mapDel m k) :=
  List.Pairwise.sublist (mapDel_sublist m k) h

/-! ## Brace-scan lemmas -/

theorem le_braceLoop (l : List Char) : ∀ (i : Nat) (cnt : Int) (st : Bool),
    i ≤ braceLoop l i cnt st := by
  induction l with
  | nil => intro i cnt st; simp [braceLoop]
  | cons c rest ih =>
    intro i cnt st
    simp only [braceLoop]
    split
    · exact le_trans (Nat.le_succ i) (ih (i + 1) (cnt + 1) true)
    · split
      · split
        · omega
        · exact le_trans (Nat.le_succ i) (ih (i + 1) (cnt - 1) st)
      · exact le_trans (Nat.le_succ i) (ih (i + 1) cnt st)

theorem braceLoop_le (l : List Char) : ∀ (i : Nat) (cnt : Int) (st : Bool),
    braceLoop l i cnt st ≤ i + l.length := by
  induction l with
  | nil => intro i cnt st; simp [braceLoop]
  | cons c rest ih =>
    intro i cnt st
    simp only [braceLoop, List.length_cons]
    split
    · have := ih (i + 1) (cnt + 1) true; omega
    · split
      · split
        · omega
        · have := ih (i + 1) (cnt - 1) st; omega
      · have := ih (i + 1) cnt st; omega

theorem braceLoop_of_runsOff (l : List Char) : ∀ (i : Nat) (cnt : Int) (st : Bool),
    braceRunsOff l cnt st = true → braceLoop l i cnt st = i + l.length := by
  induction l with
  | nil => intro i cnt st _; simp [braceLoop]
  | cons c rest ih =>
    intro i cnt st h
    simp only [braceRunsOff] at h
    simp only [braceLoop, List.length_cons]
    split
    · rename_i hc
      rw [if_pos hc] at h
      rw [ih (i + 1) (cnt + 1) true h]; omega
    · rename_i hc
      rw [if_neg hc] at h
      split
      · rename_i hd
        rw [if_pos hd] at h
        split
        · rename_i hz; rw [if_pos hz] at h; exact absurd h (by simp)
        · rename_i hz; rw [if_neg hz] at h
          rw [ih (i + 1) (cnt - 1) st h]; omega
      · rename_i hd
        rw [if_neg hd] at h
        rw [ih (i + 1) cnt st h]; omega

theorem braceScanFrom_ge (text : List Char) (start : Nat) :
    start ≤ braceScanFrom text start :=
  le_braceLoop (text.drop start) start 0 false

theorem braceScanFrom_le (text : List Char) (start : Nat) (h : start ≤ text.length) :
    braceScanFrom text start ≤ text.length := by
  unfold braceScanFrom
  have := braceLoop_le (text.drop start) start 0 false
  rw [List.length_drop] at this
  omega

theorem braceScanFrom_of_runsOff (text : List Char) (start : Nat) (h : start ≤ text.length)
    (hoff : braceRunsOff (text.drop start) 0 false = true) :
    braceScanFrom text start = text.length := by
  unfold braceScanFrom
  rw [braceLoop_of_runsOff (text.drop start) start 0 false hoff, List.length_drop]
  omega

/-! ## Matcher and exec-loop lemmas -/

theorem jsMatchAt_len_le : ∀ (s : List Char) (h : MatchHit), jsMatchAt s = some h →
    h.len ≤ s.length := by
  intro s h hm
  unfold jsMatchAt at hm
  cases h1 : jsAlt1 s with
  | some t =>
    obtain ⟨nm, args, rest⟩ := t
    rw [h1] at hm
    cases hm
    exact Nat.sub_le _ _
  | none =>
    rw [h1] at hm
    cases h2 : jsAlt2 s with
    | some t =>
      obtain ⟨nm, args, rest⟩ := t
      rw [h2] at hm
      cases hm
      exact Nat.sub_le _ _
    | none => rw [h2] at hm; cases hm

theorem javaMatchAt_len_le : ∀ (s : List Char) (h : MatchHit), javaMatchAt s = some h →
    h.len ≤ s.length := by
  intro s h hm
  unfold javaMatchAt at hm
  obtain ⟨x, _, hfx⟩ := List.exists_of_findSome?_eq_some hm
  cases hj : javaAfterMods x with
  | some t =>
    obtain ⟨nm, args, rest⟩ := t
    rw [hj] at hfx
    cases hfx
    exact Nat.sub_le _ _
  | none => rw [hj] at hfx; cases hfx

theorem execLoop_mem_start_le {M : List Char → Option MatchHit}
    (hM : ∀ s h, M s = some h → h.len ≤ s.length) :
    ∀ (fuel : Nat) (s : List Char) (idx : Nat), ∀ m ∈ execLoop M fuel s idx,
      m.start ≤ idx + s.length := by
  intro fuel
  induction fuel with
  | zero => intro s idx m hm; simp [execLoop] at hm
  | succ n ih =>
    intro s idx m hm
    simp only [execLoop] at hm
    cases hMs : M s with
    | some h =>
      rw [hMs] at hm
      rcases List.mem_cons.mp hm with rfl | hm'
      · simp
      · have hrec := ih (s.drop h.len) (idx + h.len) m hm'
        rw [List.length_drop] at hrec
        have hle := hM s h hMs
        omega
    | none =>
      rw [hMs] at hm
      cases s with
      | nil => simp at hm
      | cons c t =>
        have hrec := ih t (idx + 1) m hm
        simp only [List.length_cons]
        omega

theorem execAll_mem_start_le {M : List Char → Option MatchHit}
    (hM : ∀ s h, M s = some h → h.len ≤ s.length) (text : List Char) :
    ∀ m ∈ execAll M text, m.start ≤ text.length := by
  intro m hm
  simpa using execLoop_mem_start_le hM (text.length + 1) text 0 m hm

theorem regexForLanguage_len_le (language : String) (M : List Char → Option MatchHit)
    (hL : regexForLanguage language = some M) :
    ∀ s h, M s = some h → h.len ≤ s.length := by
  unfold regexForLanguage at hL
  split at hL
  · cases hL; exact jsMatchAt_len_le
  · split at hL
    · cases hL; exact javaMatchAt_len_le
    · cases hL

/-! ## Name lemmas -/

theorem jsOrElse_ne_nil (o : Option (List Char)) (fb : List Char) (hfb : fb ≠ []) :
    jsOrElse o fb ≠ [] := by
  cases o with
  | none => simpa [jsOrElse] using hfb
  | some x =>
    by_cases hx : x.isEmpty
    · simpa [jsOrElse, hx] using hfb
    · simp only [jsOrElse, if_neg hx]
      exact fun he => hx (by simp [he])

theorem jsNameOr_ne_nil (g1 g2 : Option (List Char)) : jsNameOr g1 g2 ≠ [] :=
  jsOrElse_ne_nil _ _ (jsOrElse_ne_nil _ _ (by decide))

/-- Claim C1 (code evaluation at the failing input): on the Java file
`public int f(int a) { return a; }` with a generator that returns the
well-formed block comment `/**\n * doc\n */`, the first scan emits exactly
one insertion at line 0 and records the key; the second scan, on the file
with that doc block applied and no intervening edits, emits one insertion
again instead of zero.  The Java signature regex matches starting at the
newline that ends `* ` `*/`, so the insertion line is the line above the
signature and the doc walk starts above the inserted block's closing line. -/
theorem C1_second_scan_inserts_again :
    c1Run1.edits = [⟨0, str "/**\n * doc\n */" ++ ['\n']⟩] ∧
    c1Run1.insertedCount = 1 ∧
    mapGet c1Run1.history (uniqueKey (str "Main.java") "java" c1Text) = some true ∧
    c1Run2.insertedCount = 1 ∧
    c1Run2.edits = [⟨2, str "/**\n * doc\n */" ++ ['\n']⟩] := by decide

/-- Claim C2, counterexample: on a text holding one well-formed function and
one truncated one (forward brace count goes positive at offset 28's `{` and
never returns to zero), the locator returns *two* descriptors - the
unbalanced candidate is not omitted; its descriptor ends at the text length. -/
theorem C2_counterexample :
    braceRunsOff (c2Text.drop 28) 0 false = true ∧
    (parseFunctionsRegex c2Text "javascript").map ParsedFunction.startIndex = [0, 28] ∧
    (parseFunctionsRegex c2Text "javascript").map ParsedFunction.endIndex = [27, 44] ∧
    c2Text.length = 44 := by decide

/-- Claim C3, counterexample: an anonymous function expression used as a
callback is *not* collected - `handleFunctionNode` drops any node whose
resolved name is `"anonymous"`, so the locator returns the empty list. -/
theorem C3_counterexample :
    parseJSTSWithAST "javascript" (Except.ok c3Ast) = [] := by decide

/-- Claim C4, counterexample: a scan in which the only function is documented
and already recorded `true` changes no entry of the history map, yet the
record is still written back, because the write condition is
`Object.keys(history).length` (map non-emptiness), not "some entry changed". -/
theorem C4_counterexample :
    c4Run.history = [(c4Key, true)] ∧ c4Run.edits = [] ∧ historyWritten c4Run = true := by decide

/-- Claim C5, counterexample: above line 3, line 2 (`end */`) ends a block
comment, the very next non-blank line upward (`code();`) does not start a
block/doc comment opener - the claim says undocumented - yet the detector
reports documented, because the in-block walk skips past arbitrary lines
until it finds an opener anywhere above. -/
theorem C5_counterexample :
    endsWithC (trimC (c5Lines.getD 2 [])) (str "*/") = true ∧
    nextNonBlankUp c5Lines 2 = some (str "code();") ∧
    startsWithC (str "code();") (str "/**") = false ∧
    startsWithC (str "code();") (str "/*") = false ∧
    hasDocCommentAbove c5Lines 3 = true := by decide

/-- Claim C6, counterexample: for the spec's example input the descriptor's
end offset is 51 - one *past* the final closing brace, which sits at offset
50 - not the offset of the final closing brace itself. -/
theorem C6_counterexample :
    (parseFunctionsRegex c6Text "javascript").map ParsedFunction.endIndex = [51] ∧
    c6Text.get? 50 = some '\x7d' ∧ c6Text.length = 51 := by decide

/-- Claim C6 (amended): the located descriptor spans offsets `[0, 51)` - the
end offset is one past the final closing brace (the exclusive end of a span
that includes the brace at offset 50) - and parameter extraction yields
exactly `[{name:"a"},{name:"b"}]` with no types. -/
theorem C6_amended_eval :
    parseFunctionsRegex c6Text "javascript" =
      [{ name := str "f"
         params := [⟨str "a", none⟩, ⟨str "b", none⟩]
         returnType := none
         startIndex := 0
         endIndex := 50 + 1
         body := c6Text
         language := "javascript" }] ∧
    c6Text.get? 50 = some '\x7d' ∧ (c6Text.drop 51).all (fun c => c ≠ '\x7d') := by decide

/-- Claim C8, counterexample: the two functions share one identity key; the
first (line 0) is undocumented and its generator call fails, yet at the end
of the scan the key *is* recorded `true`, because the second, documented
function with the same body re-records it. -/
theorem C8_counterexample :
    (parseJavaWithRegex c8Text).map (fun d => uniqueKey (str "A.java") "java" d.body) =
      [c8Key, c8Key] ∧
    (parseJavaWithRegex c8Text).map (scanLineOf c8Text "java") = [0, 3] ∧
    hasDocCommentAbove (splitOnNl c8Text) 0 = false ∧
    (∀ b l, genFailing b l = none) ∧
    c8Run.edits = [] ∧
    mapGet c8Run.history c8Key = some true := by
  refine ⟨by decide, by decide, by decide, fun b l => rfl, by decide, by decide⟩

/-- Claim C9, counterexample: on a failed parse (non-zero exit code) the
Python locator does not return an empty descriptor list - its promise
rejects with the error message. -/
theorem C9_counterexample :
    parsePythonWithAST 1 none (str "SyntaxError") =
      Except.error (str "Python parser failed with code 1: SyntaxError") := by rfl

/-- Claim C10: every descriptor returned by the regex locators (the
regex-fallback `parseFunctions` for any language, and `parseJavaWithRegex`)
has `0 ≤ startIndex ≤ endIndex ≤ text.length`, a non-empty name, and a body
equal to the substring `text[startIndex, endIndex)` after per-line trimming,
dropping of blank lines, and joining with newlines. -/
theorem C10_descriptor_invariants (text : List Char) (language : String) (d : ParsedFunction)
    (hd : d ∈ parseFunctionsRegex text language ∨ d ∈ parseJavaWithRegex text) :
    d.startIndex ≤ d.endIndex ∧ d.endIndex ≤ text.length ∧ d.name ≠ [] ∧
      d.body = joinNl (((splitOnNl (substrC text d.startIndex d.endIndex)).map trimC).filter
        (fun l => ¬l.isEmpty)) := by
  rcases hd with hd | hd
  · unfold parseFunctionsRegex at hd
    cases hL : regexForLanguage language with
    | none => rw [hL] at hd; simp at hd
    | some M =>
      rw [hL] at hd
      obtain ⟨m, hm, rfl⟩ := List.mem_map.mp hd
      have hstart := execAll_mem_start_le (regexForLanguage_len_le language M hL) text m hm
      exact ⟨braceScanFrom_ge text m.start, braceScanFrom_le text m.start hstart,
        jsNameOr_ne_nil _ _, rfl⟩
  · unfold parseJavaWithRegex at hd
    obtain ⟨m, hm, rfl⟩ := List.mem_map.mp hd
    have hstart := execAll_mem_start_le javaMatchAt_len_le text m hm
    exact ⟨braceScanFrom_ge text m.start, braceScanFrom_le text m.start hstart,
      jsNameOr_ne_nil _ _, rfl⟩

/-- Claim C10, witness: the invariants, instantiated at the concrete
brace-balance example and its descriptor. -/
theorem C10_witness :
    (c10Desc ∈ parseFunctionsRegex c6Text "javascript" ∨ c10Desc ∈ parseJavaWithRegex c6Text) ∧
    (c10Desc.startIndex ≤ c10Desc.endIndex ∧ c10Desc.endIndex ≤ c6Text.length ∧
      c10Desc.name ≠ [] ∧
      c10Desc.body = joinNl (((splitOnNl (substrC c6Text c10Desc.startIndex
        c10Desc.endIndex)).map trimC).filter (fun l => ¬l.isEmpty))) :=
  ⟨Or.inl (by decide),
    C10_descriptor_invariants c6Text "javascript" c10Desc (Or.inl (by decide))⟩

/-- Claim C2 (amended): a signature match whose forward brace count never
returns to zero is *not* discarded - the locators emit one descriptor per
signature match, and an unbalanced candidate's descriptor simply ends at the
length of the input (body to end-of-file); well-formed candidates in the same
text are unaffected. -/
theorem C2_amended_kept (text : List Char) (language : String)
    (M : List Char → Option MatchHit) (hL : regexForLanguage language = some M) :
    (parseFunctionsRegex text language).length = (execAll M text).length ∧
    (∀ d ∈ parseFunctionsRegex text language,
      braceRunsOff (text.drop d.startIndex) 0 false = true → d.endIndex = text.length) ∧
    (∀ d ∈ parseJavaWithRegex text,
      braceRunsOff (text.drop d.startIndex) 0 false = true → d.endIndex = text.length) := by
  refine ⟨?_, ?_, ?_⟩
  · unfold parseFunctionsRegex
    rw [hL, List.length_map]
  · intro d hd hoff
    unfold parseFunctionsRegex at hd
    rw [hL] at hd
    obtain ⟨m, hm, rfl⟩ := List.mem_map.mp hd
    have hstart := execAll_mem_start_le (regexForLanguage_len_le language M hL) text m hm
    exact braceScanFrom_of_runsOff text m.start hstart hoff
  · intro d hd hoff
    unfold parseJavaWithRegex at hd
    obtain ⟨m, hm, rfl⟩ := List.mem_map.mp hd
    have hstart := execAll_mem_start_le javaMatchAt_len_le text m hm
    exact braceScanFrom_of_runsOff text m.start hstart hoff

/-- Claim C2, witness: the amended statement instantiated at the concrete
text holding a well-formed and a truncated function. -/
theorem C2_witness :
    regexForLanguage "javascript" = some jsMatchAt ∧
    ((parseFunctionsRegex c2Text "javascript").length = (execAll jsMatchAt c2Text).length ∧
    (∀ d ∈ parseFunctionsRegex c2Text "javascript",
      braceRunsOff (c2Text.drop d.startIndex) 0 false = true → d.endIndex = c2Text.length) ∧
    (∀ d ∈ parseJavaWithRegex c2Text,
      braceRunsOff (c2Text.drop d.startIndex) 0 false = true → d.endIndex = c2Text.length)) :=
  ⟨rfl, C2_amended_kept c2Text "javascript" jsMatchAt rfl⟩

/-! ## Scan-loop case lemmas -/

theorem scanStep_invalid (text rp : List Char) (language : String)
    (gen : List Char → String → Option (List Char)) (st : ScanState) (fn : ParsedFunction)
    (hv : ¬ scanLineValid text language fn) :
    scanStep text rp language gen st fn = st := by
  unfold scanLineValid at hv
  unfold scanStep
  rw [if_pos (not_not.mp hv)]

theorem scanStep_documented (text rp : List Char) (language : String)
    (gen : List Char → String → Option (List Char)) (st : ScanState) (fn : ParsedFunction)
    (hv : scanLineValid text language fn)
    (hdoc : hasDocCommentAbove (splitOnNl text) (scanLineOf text language fn).toNat = true) :
    scanStep text rp language gen st fn =
      { st with history := mapSet st.history (uniqueKey rp language fn.body) true } := by
  unfold scanLineValid at hv
  unfold scanStep
  rw [if_neg hv, if_pos hdoc]

theorem scanStep_genFail (text rp : List Char) (language : String)
    (gen : List Char → String → Option (List Char)) (st : ScanState) (fn : ParsedFunction)
    (hv : scanLineValid text language fn)
    (hdoc : hasDocCommentAbove (splitOnNl text) (scanLineOf text language fn).toNat = false)
    (hfail : gen fn.body language = none ∨ gen fn.body language = some []) :
    scanStep text rp language gen st fn =
      { st with history :=
          if mapGet st.history (uniqueKey rp language fn.body) = some true then
            mapDel st.history (uniqueKey rp language fn.body)
          else st.history } := by
  unfold scanLineValid at hv
  unfold scanStep
  rw [if_neg hv, if_neg (by simp [hdoc])]
  rcases hfail with hfail | hfail <;> rw [hfail]
  simp

theorem scanStep_edits (text rp : List Char) (language : String)
    (gen : List Char → String → Option (List Char)) (st : ScanState) (fn : ParsedFunction) :
    (scanStep text rp language gen st fn).edits =
      st.edits ++ (stepEditOf text language gen fn).toList := by
  unfold scanStep stepEditOf
  by_cases hv : scanLineOf text language fn < 0 ∨ (lineCount text : Int) ≤ scanLineOf text language fn
  · rw [if_pos hv, if_pos hv]; simp
  · rw [if_neg hv, if_neg hv]
    by_cases hdoc :
        hasDocCommentAbove (splitOnNl text) (scanLineOf text language fn).toNat = true
    · rw [if_pos hdoc, if_pos hdoc]; simp
    · rw [if_neg hdoc, if_neg hdoc]
      cases gen fn.body language with
      | none => simp
      | some d =>
        by_cases hd : d.isEmpty
        · simp [hd]
        · simp [hd]

theorem scanStep_nodup (text rp : List Char) (language : String)
    (gen : List Char → String → Option (List Char)) (st : ScanState) (fn : ParsedFunction)
    (h : NodupKeys st.history) : NodupKeys (scanStep text rp language gen st fn).history := by
  unfold scanStep
  by_cases hv : scanLineOf text language fn < 0 ∨ (lineCount text : Int) ≤ scanLineOf text language fn
  · rw [if_pos hv]; exact h
  · rw [if_neg hv]
    by_cases hdoc :
        hasDocCommentAbove (splitOnNl text) (scanLineOf text language fn).toNat = true
    · rw [if_pos hdoc]; exact nodup_mapSet _ _ _ h
    · rw [if_neg hdoc]
      have h1 : NodupKeys (if mapGet st.history (uniqueKey rp language fn.body) = some true then
          mapDel st.history (uniqueKey rp language fn.body) else st.history) := by
        split
        · exact nodup_mapDel _ _ h
        · exact h
      cases gen fn.body language with
      | none => exact h1
      | some d =>
        by_cases hd : d.isEmpty
        · simp only [hd]; exact h1
        · simp only [hd]; exact nodup_mapSet _ _ _ h1

theorem scanStep_preserves_keyNotTrue (text rp : List Char) (language : String)
    (gen : List Char → String → Option (List Char)) (st : ScanState) (fn : ParsedFunction)
    (k : List Char)
    (hk : uniqueKey rp language fn.body = k → scanLineValid text language fn →
      hasDocCommentAbove (splitOnNl text) (scanLineOf text language fn).toNat = false ∧
      (gen fn.body language = none ∨ gen fn.body language = some []))
    (hst : mapGet st.history k ≠ some true) :
    mapGet (scanStep text rp language gen st fn).history k ≠ some true := by
  by_cases hv : scanLineValid text language fn
  · by_cases hkey : uniqueKey rp language fn.body = k
    · obtain ⟨hdoc, hfail⟩ := hk hkey hv
      rw [scanStep_genFail text rp language gen st fn hv hdoc hfail]
      simp only
      rw [if_neg (by simpa [hkey] using hst)]
      simpa [hkey] using hst
    · by_cases hdoc :
          hasDocCommentAbove (splitOnNl text) (scanLineOf text language fn).toNat = true
      · rw [scanStep_documented text rp language gen st fn hv hdoc]
        simpa [mapGet_set_ne st.history k _ _ hkey] using hst
      · unfold scanLineValid at hv
        unfold scanStep
        rw [if_neg hv, if_neg (by simpa using hdoc)]
        have h1 : mapGet (if mapGet st.history (uniqueKey rp language fn.body) = some true then
            mapDel st.history (uniqueKey rp language fn.body) else st.history) k ≠ some true := by
          split
          · rw [mapGet_del_ne st.history k _ hkey]; exact hst
          · exact hst
        cases hgen : gen fn.body language with
        | none => simpa using h1
        | some d =>
          by_cases hd : d.isEmpty
          · simpa [hd] using h1
          · simpa [hd, mapGet_set_ne _ k _ true hkey] using h1
  · rw [scanStep_invalid text rp language gen st fn hv]
    exact hst

theorem scanStep_clears_failed (text rp : List Char) (language : String)
    (gen : List Char → String → Option (List Char)) (st : ScanState) (fn : ParsedFunction)
    (hnd : NodupKeys st.history)
    (hv : scanLineValid text language fn)
    (hdoc : hasDocCommentAbove (splitOnNl text) (scanLineOf text language fn).toNat = false)
    (hfail : gen fn.body language = none ∨ gen fn.body language = some []) :
    mapGet (scanStep text rp language gen st fn).history (uniqueKey rp language fn.body) ≠
      some true := by
  rw [scanStep_genFail text rp language gen st fn hv hdoc hfail]
  simp only
  split
  · rw [mapGet_del_self st.history _ hnd]; simp
  · assumption

/-! ## Scan-fold lemmas -/

theorem scanFold_edits (text rp : List Char) (language : String)
    (gen : List Char → String → Option (List Char)) (funcs : List ParsedFunction) :
    ∀ st : ScanState, (funcs.foldl (scanStep text rp language gen) st).edits =
      st.edits ++ funcs.filterMap (stepEditOf text language gen) := by
  induction funcs with
  | nil => intro st; simp
  | cons fn rest ih =>
    intro st
    rw [List.foldl_cons, ih, scanStep_edits]
    cases he : stepEditOf text language gen fn <;>
      simp [List.filterMap_cons, he]

theorem scanFold_nodup (text rp : List Char) (language : String)
    (gen : List Char → String → Option (List Char)) (funcs : List ParsedFunction) :
    ∀ st : ScanState, NodupKeys st.history →
      NodupKeys ((funcs.foldl (scanStep text rp language gen) st).history) := by
  induction funcs with
  | nil => intro st h; exact h
  | cons fn rest ih =>
    intro st h
    rw [List.foldl_cons]
    exact ih _ (scanStep_nodup text rp language gen st fn h)

theorem scanFold_preserves_keyNotTrue (text rp : List Char) (language : String)
    (gen : List Char → String → Option (List Char)) (k : List Char)
    (funcs : List ParsedFunction)
    (hall : ∀ fn ∈ funcs, uniqueKey rp language fn.body = k → scanLineValid text language fn →
      hasDocCommentAbove (splitOnNl text) (scanLineOf text language fn).toNat = false ∧
      (gen fn.body language = none ∨ gen fn.body language = some [])) :
    ∀ st : ScanState, mapGet st.history k ≠ some true →
      mapGet ((funcs.foldl (scanStep text rp language gen) st).history) k ≠ some true := by
  induction funcs with
  | nil => intro st h; exact h
  | cons fn rest ih =>
    intro st h
    rw [List.foldl_cons]
    refine ih (fun f hf => hall f (List.mem_cons_of_mem fn hf)) _ ?_
    exact scanStep_preserves_keyNotTrue text rp language gen st fn k
      (hall fn (List.mem_cons_self fn rest)) h

theorem scanFold_all_documented (text rp : List Char) (language : String)
    (gen : List Char → String → Option (List Char)) (history0 : HistoryMap)
    (funcs : List ParsedFunction)
    (hall : ∀ fn ∈ funcs, scanLineValid text language fn →
      hasDocCommentAbove (splitOnNl text) (scanLineOf text language fn).toNat = true ∧
      mapGet history0 (uniqueKey rp language fn.body) = some true) :
    ∀ st : ScanState, st.history = history0 →
      (funcs.foldl (scanStep text rp language gen) st).history = history0 ∧
      (funcs.foldl (scanStep text rp language gen) st).edits = st.edits := by
  induction funcs with
  | nil => intro st h; exact ⟨h, rfl⟩
  | cons fn rest ih =>
    intro st h
    rw [List.foldl_cons]
    have hstep : scanStep text rp language gen st fn = st := by
      by_cases hv : scanLineValid text language fn
      · obtain ⟨hdoc, hrec⟩ := hall fn (List.mem_cons_self fn rest) hv
        rw [scanStep_documented text rp language gen st fn hv hdoc]
        rw [h, mapGet_set_self history0 _ hrec, ← h]
      · exact scanStep_invalid text rp language gen st fn hv
    rw [hstep]
    exact ih (fun f hf => hall f (List.mem_cons_of_mem fn hf)) st h

/-- Claim C4 (amended): if every (valid-line) function of the scan is
detected as documented and its key is already recorded `true`, the scan
leaves the history map unchanged and emits no edit - but the record is
still written back whenever the map is non-empty, because the write
condition is `Object.keys(history).length`, not "some entry changed". -/
theorem C4_amended_write_iff_nonempty (funcs : List ParsedFunction) (text rp : List Char)
    (language : String) (gen : List Char → String → Option (List Char))
    (history0 : HistoryMap)
    (hall : ∀ fn ∈ funcs, scanLineValid text language fn →
      hasDocCommentAbove (splitOnNl text) (scanLineOf text language fn).toNat = true ∧
      mapGet history0 (uniqueKey rp language fn.body) = some true) :
    (scanWithFuncs funcs text rp language gen history0).history = history0 ∧
    (scanWithFuncs funcs text rp language gen history0).edits = [] ∧
    (historyWritten (scanWithFuncs funcs text rp language gen history0) = true ↔
      history0 ≠ []) := by
  obtain ⟨hh, he⟩ := scanFold_all_documented text rp language gen history0 funcs hall
    ⟨[], history0, 0⟩ rfl
  refine ⟨hh, he, ?_⟩
  unfold historyWritten scanWithFuncs
  rw [hh]
  simp [List.length_eq_zero]

/-- Claim C4, witness: the amended statement instantiated at the documented,
already-recorded Java file. -/
theorem C4_witness :
    (∀ fn ∈ parseJavaWithRegex c4Text, scanLineValid c4Text "java" fn →
      hasDocCommentAbove (splitOnNl c4Text) (scanLineOf c4Text "java" fn).toNat = true ∧
      mapGet [(c4Key, true)] (uniqueKey (str "B.java") "java" fn.body) = some true) ∧
    ((scanWithFuncs (parseJavaWithRegex c4Text) c4Text (str "B.java") "java" genFailing
        [(c4Key, true)]).history = [(c4Key, true)] ∧
      (scanWithFuncs (parseJavaWithRegex c4Text) c4Text (str "B.java") "java" genFailing
        [(c4Key, true)]).edits = [] ∧
      (historyWritten (scanWithFuncs (parseJavaWithRegex c4Text) c4Text (str "B.java") "java"
        genFailing [(c4Key, true)]) = true ↔ ([(c4Key, true)] : HistoryMap) ≠ [])) :=
  ⟨by decide,
    C4_amended_write_iff_nonempty (parseJavaWithRegex c4Text) c4Text (str "B.java") "java"
      genFailing [(c4Key, true)] (by decide)⟩

/-- Claim C8 (amended): for an undocumented, valid-line function whose
generator call fails or returns empty, the scan emits no insertion edit for
it, and - *provided every function sharing its identity key also fails the
same way* - the key is not recorded `true` at the end of the scan (a prior
`true` entry having been cleared); without that proviso a documented
duplicate body re-records the shared key (see the counterexample). -/
theorem C8_amended_retry (funcs : List ParsedFunction) (text rp : List Char)
    (language : String) (gen : List Char → String → Option (List Char))
    (history0 : HistoryMap) (hnd : NodupKeys history0)
    (d : ParsedFunction) (hd : d ∈ funcs)
    (hv : scanLineValid text language d)
    (hdoc : hasDocCommentAbove (splitOnNl text) (scanLineOf text language d).toNat = false)
    (hfail : gen d.body language = none ∨ gen d.body language = some [])
    (hsame : ∀ f ∈ funcs, uniqueKey rp language f.body = uniqueKey rp language d.body →
      scanLineValid text language f →
        hasDocCommentAbove (splitOnNl text) (scanLineOf text language f).toNat = false ∧
        (gen f.body language = none ∨ gen f.body language = some [])) :
    stepEditOf text language gen d = none ∧
    (scanWithFuncs funcs text rp language gen history0).edits =
      funcs.filterMap (stepEditOf text language gen) ∧
    mapGet (scanWithFuncs funcs text rp language gen history0).history
      (uniqueKey rp language d.body) ≠ some true := by
  refine ⟨?_, ?_, ?_⟩
  · unfold scanLineValid at hv
    unfold stepEditOf
    rw [if_neg hv, if_neg (by simp [hdoc])]
    rcases hfail with hfail | hfail <;> rw [hfail]
    simp
  · unfold scanWithFuncs
    rw [scanFold_edits]
    simp
  · obtain ⟨l1, l2, rfl⟩ := List.append_of_mem hd
    unfold scanWithFuncs
    rw [List.foldl_append, List.foldl_cons]
    set st1 := l1.foldl (scanStep text rp language gen) ⟨[], history0, 0⟩ with hst1
    have hnd1 : NodupKeys st1.history :=
      scanFold_nodup text rp language gen l1 ⟨[], history0, 0⟩ hnd
    have hafter : mapGet (scanStep text rp language gen st1 d).history
        (uniqueKey rp language d.body) ≠ some true :=
      scanStep_clears_failed text rp language gen st1 d hnd1 hv hdoc hfail
    refine scanFold_preserves_keyNotTrue text rp language gen _ l2 ?_ _ hafter
    intro f hf
    exact hsame f (by simp [hf])

/-- Claim C8, witness: the amended statement instantiated at a Java file
whose single (hence key-unique) function is undocumented while the generator
fails: no edit is emitted and the key ends not recorded. -/
theorem C8_witness :
    (c8WitnessDesc ∈ parseJavaWithRegex c1Text ∧
      scanLineValid c1Text "java" c8WitnessDesc ∧
      hasDocCommentAbove (splitOnNl c1Text) (scanLineOf c1Text "java" c8WitnessDesc).toNat =
        false ∧
      genFailing c8WitnessDesc.body "java" = none) ∧
    (stepEditOf c1Text "java" genFailing c8WitnessDesc = none ∧
      (scanWithFuncs (parseJavaWithRegex c1Text) c1Text (str "Main.java") "java" genFailing
        []).edits = (parseJavaWithRegex c1Text).filterMap (stepEditOf c1Text "java" genFailing) ∧
      mapGet (scanWithFuncs (parseJavaWithRegex c1Text) c1Text (str "Main.java") "java"
          genFailing []).history (uniqueKey (str "Main.java") "java" c8WitnessDesc.body) ≠
        some true) :=
  ⟨⟨by decide, by decide, by decide, rfl⟩,
    C8_amended_retry (parseJavaWithRegex c1Text) c1Text (str "Main.java") "java" genFailing []
      List.Pairwise.nil c8WitnessDesc (by decide) (by decide) (by decide) (Or.inl rfl)
      (by decide)⟩

/-! ## Traversal lemmas for the JS/TS AST locator -/

theorem handleFunctionNode_resolved (language : String) (nm : List Char) (info : FnNodeInfo)
    (d : ParsedFunction) (hd : d ∈ handleFunctionNode language nm info) :
    d.name ≠ [] ∧ d.name ≠ str "anonymous" := by
  unfold handleFunctionNode at hd
  split at hd
  · simp at hd
  · rename_i hcond
    simp only [List.mem_singleton] at hd
    subst hd
    simp only [Bool.or_eq_true, not_or, List.isEmpty_iff, decide_eq_true_eq] at hcond
    exact ⟨hcond.1, hcond.2⟩

mutual
theorem collectNode_resolved (language : String) (pv : Option (List Char)) (a : JsAst) :
    ∀ d ∈ collectNode language pv a, d.name ≠ [] ∧ d.name ≠ str "anonymous" := by
  cases a with
  | functionDeclaration id info ch =>
    intro d hd
    rcases List.mem_append.mp hd with h | h
    · exact handleFunctionNode_resolved _ _ _ _ h
    · exact collectList_resolved language none ch d h
  | functionExpression id info ch =>
    intro d hd
    rcases List.mem_append.mp hd with h | h
    · exact handleFunctionNode_resolved _ _ _ _ h
    · exact collectList_resolved language none ch d h
  | arrowFunctionExpression info ch =>
    intro d hd
    rcases List.mem_append.mp hd with h | h
    · exact handleFunctionNode_resolved _ _ _ _ h
    · exact collectList_resolved language none ch d h
  | classMethod keyName info ch =>
    intro d hd
    rcases List.mem_append.mp hd with h | h
    · exact handleFunctionNode_resolved _ _ _ _ h
    · exact collectList_resolved language none ch d h
  | tsDeclareFunction id info ch =>
    intro d hd
    rcases List.mem_append.mp hd with h | h
    · exact handleFunctionNode_resolved _ _ _ _ h
    · exact collectList_resolved language none ch d h
  | variableDeclarator idName ch =>
    intro d hd
    exact collectList_resolved language idName ch d hd
  | otherNode ch =>
    intro d hd
    exact collectList_resolved language none ch d hd

theorem collectList_resolved (language : String) (pv : Option (List Char)) (l : JsAstList) :
    ∀ d ∈ collectList language pv l, d.name ≠ [] ∧ d.name ≠ str "anonymous" := by
  cases l with
  | nil => intro d hd; exact absurd hd (by simp [collectList])
  | cons a rest =>
    intro d hd
    rcases List.mem_append.mp hd with h | h
    · exact collectNode_resolved language pv a d h
    · exact collectList_resolved language pv rest d h
end

/-- Claim C3 (amended): a function-like node whose name cannot be resolved is
*not* collected - `handleFunctionNode` returns without pushing whenever the
resolved name is empty or `"anonymous"` - so every descriptor the JS/TS AST
locator returns carries a non-empty resolved name different from
`"anonymous"`. -/
theorem C3_amended_anonymous_dropped (language : String)
    (parseOutcome : Except (List Char) JsAst) (d : ParsedFunction)
    (hd : d ∈ parseJSTSWithAST language parseOutcome) :
    d.name ≠ [] ∧ d.name ≠ str "anonymous" := by
  cases parseOutcome with
  | error e => simp [parseJSTSWithAST] at hd
  | ok ast => exact collectNode_resolved language none ast d hd

/-- Claim C3, witness: the amended statement instantiated at a named
function declaration. -/
theorem C3_witness :
    c3AddDesc ∈ parseJSTSWithAST "javascript" (Except.ok c3AstNamed) ∧
    (c3AddDesc.name ≠ [] ∧ c3AddDesc.name ≠ str "anonymous") :=
  ⟨by decide,
    C3_amended_anonymous_dropped "javascript" (Except.ok c3AstNamed) c3AddDesc (by decide)⟩

/-! ## In-block walk characterization -/

theorem startsWith_opener_absorb (t : List Char) :
    (startsWithC t (str "/**") || startsWithC t (str "/*")) = startsWithC t (str "/*") := by
  show (startsWithC t ['/', '*', '*'] || startsWithC t ['/', '*']) = startsWithC t ['/', '*']
  cases t with
  | nil => rfl
  | cons a t1 =>
    cases t1 with
    | nil => simp [startsWithC, List.isPrefixOf]
    | cons b t2 =>
      cases t2 with
      | nil =>
        simp only [startsWithC, List.isPrefixOf]
        by_cases h1 : a = '/' <;> by_cases h2 : b = '*' <;>
          (simp [h1, h2, beq_iff_eq]; try tauto)
      | cons c t3 =>
        simp only [startsWithC, List.isPrefixOf]
        by_cases h1 : a = '/' <;> by_cases h2 : b = '*' <;> by_cases h3 : c = '*' <;>
          (simp [h1, h2, h3, beq_iff_eq]; try tauto)

theorem hasDocWalk_inBlock_iff (lines : List (List Char)) :
    ∀ i : Nat, i < lines.length →
      (hasDocWalk lines i true = true ↔
        ∃ k, k ≤ i ∧ startsWithC (trimC (lines.getD k [])) (str "/*") = true) := by
  intro i
  induction i with
  | zero =>
    intro hi
    rw [hasDocWalk]
    rw [if_neg (by omega)]
    simp only [Bool.not_true, Bool.false_eq_true, if_false, startsWith_opener_absorb]
    by_cases hP : startsWithC (trimC (lines.getD 0 [])) (str "/*") = true
    · simp only [hP, if_pos rfl]
      exact ⟨fun _ => ⟨0, le_refl 0, hP⟩, fun _ => rfl⟩
    · rw [if_neg hP]
      constructor
      · intro h; cases h
      · rintro ⟨k, hk, hPk⟩
        interval_cases k
        exact absurd hPk hP
  | succ j ih =>
    intro hi
    rw [hasDocWalk]
    rw [if_neg (by omega)]
    simp only [Bool.not_true, Bool.false_eq_true, if_false, startsWith_opener_absorb]
    by_cases hP : startsWithC (trimC (lines.getD (j + 1) [])) (str "/*") = true
    · simp only [hP, if_pos rfl]
      exact ⟨fun _ => ⟨j + 1, le_refl _, hP⟩, fun _ => rfl⟩
    · rw [if_neg hP]
      rw [ih (by omega)]
      constructor
      · rintro ⟨k, hk, hPk⟩
        exact ⟨k, Nat.le_succ_of_le hk, hPk⟩
      · rintro ⟨k, hk, hPk⟩
        rcases Nat.le_succ_iff.mp hk with hk | rfl
        · exact ⟨k, hk, hPk⟩
        · exact absurd hPk hP

/-- Claim C5 (amended): when the walk (in normal mode) meets a line whose
trimmed text ends a block comment, it continues upward in in-block mode; and
in-block mode reports documented *exactly when some line at or above the
current index starts (after trimming) with `/*` - skipping past blank,
code, and comment lines alike - reporting undocumented only upon reaching
the top of the file without such a line*. -/
theorem C5_amended_inBlock_walk (lines : List (List Char)) (i : Nat)
    (hi : i + 1 < lines.length)
    (hclose : endsWithC (trimC (lines.getD (i + 1) [])) (str "*/") = true) :
    hasDocWalk lines (i + 1) false = hasDocWalk lines i true ∧
    (hasDocWalk lines i true = true ↔
      ∃ k, k ≤ i ∧ startsWithC (trimC (lines.getD k [])) (str "/*") = true) := by
  constructor
  · conv_lhs => rw [hasDocWalk]
    rw [if_neg (by omega : ¬ lines.length ≤ i + 1)]
    simp only [Bool.not_false, if_true, if_pos hclose]
  · exact hasDocWalk_inBlock_iff lines i (by omega)

/-- Claim C5, witness: the amended statement instantiated at the lines where
the opener sits above an interposed code line. -/
theorem C5_witness :
    (1 + 1 < c5Lines.length ∧
      endsWithC (trimC (c5Lines.getD (1 + 1) [])) (str "*/") = true) ∧
    (hasDocWalk c5Lines (1 + 1) false = hasDocWalk c5Lines 1 true ∧
      (hasDocWalk c5Lines 1 true = true ↔
        ∃ k, k ≤ 1 ∧ startsWithC (trimC (c5Lines.getD k [])) (str "/*") = true)) :=
  ⟨⟨by decide, by decide⟩, C5_amended_inBlock_walk c5Lines 1 (by decide) (by decide)⟩

/-! ## Whitespace-collapse lemmas -/

theorem collapseAux_true_ws (r t : List Char) (hw : ∀ c ∈ r, isWsC c = true) :
    collapseAux true (r ++ t) = collapseAux true t := by
  induction r with
  | nil => rfl
  | cons c rest ih =>
    have hc := hw c (List.mem_cons_self c rest)
    simp only [List.cons_append, collapseAux, hc, if_pos rfl, if_true]
    exact ih fun c' hc' => hw c' (List.mem_cons_of_mem c hc')

theorem collapseAux_false_ws (r t : List Char) (hr : r ≠ []) (hw : ∀ c ∈ r, isWsC c = true) :
    collapseAux false (r ++ t) = ' ' :: collapseAux true t := by
  cases r with
  | nil => exact absurd rfl hr
  | cons c rest =>
    have hc := hw c (List.mem_cons_self c rest)
    simp [List.cons_append, collapseAux, hc,
      collapseAux_true_ws rest t fun c' hc' => hw c' (List.mem_cons_of_mem c hc')]

theorem WsReformat.collapseAux_eq {a b : List Char} (h : WsReformat a b) :
    ∀ fl : Bool, collapseAux fl a = collapseAux fl b := by
  induction h with
  | nil => intro fl; rfl
  | keep c hc _ ih =>
    intro fl
    cases fl <;> simp only [collapseAux, hc, Bool.false_eq_true, if_false] <;> rw [ih false]
  | run r1 r2 h1 h2 hw1 hw2 _ ih =>
    intro fl
    cases fl
    · rw [collapseAux_false_ws r1 _ h1 hw1, collapseAux_false_ws r2 _ h2 hw2, ih true]
    · rw [collapseAux_true_ws r1 _ hw1, collapseAux_true_ws r2 _ hw2, ih true]

/-- Claim C7: a function body reformatted only inside its existing whitespace
runs (no token-level change) yields the same identity key
`relativePath::language::digest`, because the key is computed from the body
with every whitespace run collapsed to a single space before hashing. -/
theorem C7_key_stable_under_reformat (rp : List Char) (language : String) (b b' : List Char)
    (h : WsReformat b b') : uniqueKey rp language b = uniqueKey rp language b' := by
  unfold uniqueKey collapseWs
  rw [h.collapseAux_eq false]

/-- Claim C7, witness: the theorem applied to a concrete body and a
reformatting of its single whitespace run. -/
theorem C7_witness :
    WsReformat (str "a b") (str "a  \t b") ∧
    uniqueKey (str "src/util.ts") "typescript" (str "a b") =
      uniqueKey (str "src/util.ts") "typescript" (str "a  \t b") := by
  have hws : WsReformat (str "a b") (str "a  \t b") :=
    WsReformat.keep 'a' (by decide)
      (WsReformat.run [' '] [' ', ' ', '\t', ' '] (by decide) (by decide) (by decide) (by decide)
        (WsReformat.keep 'b' (by decide) WsReformat.nil))
  exact ⟨hws, C7_key_stable_under_reformat (str "src/util.ts") "typescript" _ _ hws⟩

/-- Claim C9 (amended): the JS/TS AST locator contains a parse failure by
returning the empty descriptor list (after logging), but the Python locator
instead *rejects* with an error message on a non-zero parser exit code; the
scan driver catches that rejection, so the scan aborts with zero candidates
rather than crashing. -/
theorem C9_amended_containment (language : String) (e : List Char) (c : Int)
    (j : Option (List ParsedFunction)) (err : List Char) (hc : c ≠ 0) :
    parseJSTSWithAST language (Except.error e) = [] ∧
    ∃ msg, parsePythonWithAST c j err = Except.error msg := by
  refine ⟨rfl, ?_⟩
  unfold parsePythonWithAST
  rw [if_neg hc]
  exact ⟨_, rfl⟩

/-- Claim C9, witness: the amended statement at a concrete failing parse. -/
theorem C9_witness :
    (1 : Int) ≠ 0 ∧
    (parseJSTSWithAST "typescript" (Except.error (str "Unexpected token")) = [] ∧
      ∃ msg, parsePythonWithAST 1 none (str "boom") = Except.error msg) :=
  ⟨by decide,
    C9_amended_containment "typescript" (str "Unexpected token") 1 none (str "boom")
      (by decide)⟩

end AutoDocGen
